import Mathlib

/-!
Verification of the one-page PDF summary renderer
(`src/tmp/pdfs/generate_component_summary_pdf.py`).

The script is embedded shallowly: the canvas becomes a `State` carrying the
vertical cursor, the current font, and the list of emitted positioned-line
instructions; each Python drawing function becomes a Lean function on `State`.
Floating-point page coordinates and font sizes are modelled as rationals.
The font-metric function (reportlab `stringWidth`) is an abstract parameter
`Measure`, since the actual Helvetica metric tables are external data.
-/

set_option autoImplicit false

namespace PdfSummary

/-- Width of a rendered string, as a function of font name, font size and the
text itself. Abstracts reportlab `pdfmetrics.stringWidth`. -/
abbrev Measure := String → ℚ → String → ℚ

/-! ### Page geometry constants (source lines 10-13) -/

def PAGE_WIDTH : ℚ := 612

def PAGE_HEIGHT : ℚ := 792

def MARGIN : ℚ := 42

def CONTENT_WIDTH : ℚ := PAGE_WIDTH - 2 * MARGIN

/-! ### Tokenisation and joining, used by the text wrapper -/

/-- Splits a character list on whitespace into maximal non-whitespace runs.
`cur` is the (reversed) run currently being accumulated. -/
def tokenizeAux (cur : List Char) : List Char → List (List Char)
  | [] => if cur.isEmpty then [] else [cur.reverse]
  | c :: cs =>
      if c.isWhitespace then
        if cur.isEmpty then tokenizeAux [] cs
        else cur.reverse :: tokenizeAux [] cs
      else tokenizeAux (c :: cur) cs

/-- The whitespace-separated tokens of a string. -/
def tokens (text : String) : List String :=
  (tokenizeAux [] text.data).map List.asString

/-- Joins tokens with single spaces. -/
def joinSpace : List String → String
  | [] => ""
  | [t] => t
  | t :: ts => t ++ " " ++ joinSpace ts

/-! ### The greedy line builder -/

/-- Greedy grouping of tokens into lines. `cur` is the current (non-empty)
line; a further token is appended while the measured width of the joined
line stays within `maxW`, otherwise the line is closed and a fresh one is
started with that token. -/
def greedyGroupAux (lineW : List String → ℚ) (maxW : ℚ) :
    List String → List String → List (List String)
  | cur, [] => [cur]
  | cur, t :: ts =>
      if lineW (cur ++ [t]) ≤ maxW then greedyGroupAux lineW maxW (cur ++ [t]) ts
      else cur :: greedyGroupAux lineW maxW [t] ts

def greedyGroup (lineW : List String → ℚ) (maxW : ℚ) :
    List String → List (List String)
  | [] => []
  | t :: ts => greedyGroupAux lineW maxW [t] ts

/-- Modelled from the spec: reportlab `simpleSplit`, the Text Measurer/Wrapper
of spec section 4.1, whose source is a library dependency not present under
`src/`. Per the spec it splits `text` on whitespace into tokens, greedily
accumulates tokens into the current line while the measured rendered width
stays within `maxWidth`, places a lone over-wide token alone on its line, and
returns an empty sequence exactly when the text is empty or whitespace-only. -/
def simpleSplit (sw : Measure) (text fontName : String) (fontSize maxWidth : ℚ) :
    List String :=
  (greedyGroup (fun ts => sw fontName fontSize (joinSpace ts)) maxWidth
    (tokens text)).map joinSpace

/-! ### Canvas model -/

/-- One positioned-line drawing instruction: `c.drawString(x, y, text)` with
the canvas font current at the time of the call. -/
structure Instr where
  x : ℚ
  y : ℚ
  font : String
  size : ℚ
  text : String
deriving DecidableEq

/-- The mutable render state: the global cursor `y`, the canvas font state,
and the instructions emitted so far (in order). -/
@[ext]
structure State where
  y : ℚ
  font : String
  size : ℚ
  out : List Instr
deriving DecidableEq

/-- `c.setFont(font, size)`. -/
def setFont (s : State) (f : String) (sz : ℚ) : State :=
  { s with font := f, size := sz }

/-- `c.drawString(x, yy, t)` at the current canvas font. -/
def drawString (s : State) (x yy : ℚ) (t : String) : State :=
  { s with out := s.out ++ [⟨x, yy, s.font, s.size, t⟩] }

/-- Initial state: `y = PAGE_HEIGHT - MARGIN`, nothing drawn yet. -/
def initState : State := ⟨PAGE_HEIGHT - MARGIN, "", 0, []⟩

/-! ### Drawing primitives (source lines 18-80) -/

def draw_title (s : State) (text : String) : State :=
  let s := setFont s "Helvetica-Bold" 18
  let s := drawString s MARGIN s.y text
  { s with y := s.y - 22 }

def draw_heading (s : State) (text : String) : State :=
  let s := setFont s "Helvetica-Bold" 11.5
  let s := drawString s MARGIN s.y text
  { s with y := s.y - 14 }

/-- The `for line in lines` loop shared by the wrapping primitives: draw each
line at abscissa `x` and decrement the cursor by `lh` per line. -/
def drawLoop (x lh : ℚ) : State → List String → State
  | s, [] => s
  | s, line :: rest =>
      let s1 := drawString s x s.y line
      drawLoop x lh { s1 with y := s1.y - lh } rest

def draw_paragraph (sw : Measure) (s : State) (text : String)
    (font_size line_height : ℚ) : State :=
  let s := setFont s "Helvetica" font_size
  let lines := simpleSplit sw text "Helvetica" font_size CONTENT_WIDTH
  drawLoop MARGIN line_height s lines

/-- The per-item loop of `draw_bullets`; the bullet indent is the constant 12
of the source. -/
def draw_bulletsAux (sw : Measure) (font_size line_height : ℚ) :
    State → List String → State
  | s, [] => s
  | s, item :: rest =>
      match simpleSplit sw item "Helvetica" font_size (CONTENT_WIDTH - 12) with
      | [] => draw_bulletsAux sw font_size line_height s rest
      | first :: more =>
          let s1 := drawString s MARGIN s.y ("- " ++ first)
          let s2 := { s1 with y := s1.y - line_height }
          draw_bulletsAux sw font_size line_height
            (drawLoop (MARGIN + 12) line_height s2 more) rest

def draw_bullets (sw : Measure) (s : State) (items : List String)
    (font_size line_height : ℚ) : State :=
  draw_bulletsAux sw font_size line_height (setFont s "Helvetica" font_size) items

/-- The ordinal marker `f"\x7bidx\x7d. "` of `draw_numbered`. -/
def ordPfx (idx : ℕ) : String := toString idx ++ ". "

/-- The per-item loop of `draw_numbered`; `idx` is the 1-based positional
ordinal maintained by `enumerate(items, start=1)`. -/
def draw_numberedAux (sw : Measure) (font_size line_height : ℚ) :
    ℕ → State → List String → State
  | _, s, [] => s
  | idx, s, item :: rest =>
      let pfx := ordPfx idx
      let pfxW := sw "Helvetica" font_size pfx
      match simpleSplit sw item "Helvetica" font_size (CONTENT_WIDTH - pfxW) with
      | [] => draw_numberedAux sw font_size line_height (idx + 1) s rest
      | first :: more =>
          let s1 := drawString s MARGIN s.y (pfx ++ first)
          let s2 := { s1 with y := s1.y - line_height }
          draw_numberedAux sw font_size line_height (idx + 1)
            (drawLoop (MARGIN + pfxW) line_height s2 more) rest

def draw_numbered (sw : Measure) (s : State) (items : List String)
    (font_size line_height : ℚ) : State :=
  draw_numberedAux sw font_size line_height 1 (setFont s "Helvetica" font_size) items

def section_gap (s : State) : State :=
  { s with y := s.y - 6 }

/-! ### Primitive calls as data, for the cursor invariant -/

/-- One call to a drawing primitive of the Layout Cursor. -/
inductive Call where
  | title (text : String)
  | heading (text : String)
  | paragraph (text : String) (fontSize lineHeight : ℚ)
  | bullets (items : List String) (fontSize lineHeight : ℚ)
  | numbered (items : List String) (fontSize lineHeight : ℚ)
  | gap
deriving DecidableEq

/-- Executes one primitive call on the render state. -/
def step (sw : Measure) (s : State) : Call → State
  | .title t => draw_title s t
  | .heading t => draw_heading s t
  | .paragraph t fs lh => draw_paragraph sw s t fs lh
  | .bullets its fs lh => draw_bullets sw s its fs lh
  | .numbered its fs lh => draw_numbered sw s its fs lh
  | .gap => section_gap s

/-- The line heights given to a call are non-negative (the fixed heights of
title, heading and gap are constants of the source and need no side
condition). -/
def heightsNonneg : Call → Prop
  | .paragraph _ _ lh => 0 ≤ lh
  | .bullets _ _ lh => 0 ≤ lh
  | .numbered _ _ lh => 0 ≤ lh
  | _ => True

/-! ### The Document Driver (source lines 82-136) -/

def documentDriver (sw : Measure) (s : State) : State :=
  let s := draw_title s "Accessible Spreadsheet Component - One Page Summary"
  let s := draw_heading s "What it is"
  let s := draw_paragraph sw s
    "<y11n-spreadsheet> is a Lit 3.0 + TypeScript web component that provides an accessible spreadsheet-style grid in the browser. It implements WAI-ARIA grid semantics with keyboard-first interaction for data entry and calculation workflows."
    9.8 12
  let s := section_gap s
  let s := draw_heading s "What use cases it covers"
  let s := draw_paragraph sw s
    "Primary use case: embedding a spreadsheet-like UI in web apps where users need to navigate, edit, select ranges, and run formulas while preserving keyboard and screen-reader accessibility."
    9.8 12
  let s := section_gap s
  let s := draw_heading s "What it does"
  let s := draw_bullets sw s
    [ "Implements WAI-ARIA grid roles, roving tabindex, and aria-live announcements for active cell feedback.",
      "Supports Excel-like keyboard controls: arrows, Tab/Shift+Tab, Enter, Escape, Delete/Backspace, and Ctrl/Cmd shortcuts.",
      "Provides in-cell editing via Enter, double-click, or type-to-edit, with optional read-only mode.",
      "Evaluates formulas with cell refs, ranges, arithmetic, comparisons, string concatenation, and built-in functions.",
      "Allows custom formula extension through registerFunction(name, fn).",
      "Handles copy/cut/paste via TSV clipboard serialization with bounds-aware paste behavior.",
      "Uses virtual row rendering plus scroll spacers to keep large datasets responsive." ]
    9.6 11.5
  let s := section_gap s
  let s := draw_heading s "How it works"
  let s := draw_bullets sw s
    [ "Grid data is a sparse Map keyed by \"row:col\" (CellData stores rawValue, displayValue, and type).",
      "SelectionManager tracks anchor/head cells and normalized ranges for keyboard and pointer selection.",
      "FormulaEngine parses and evaluates formulas, then recalculates formula cells after edits or data changes.",
      "ClipboardManager converts selected ranges to TSV and parses pasted TSV into bounded cell updates.",
      "The component dispatches cell-change, selection-change, and data-change events for integration hooks." ]
    9.6 11.5
  let s := section_gap s
  let s := draw_heading s "How to run/use (minimal)"
  let s := draw_numbered sw s
    [ "Install dependencies: npm install",
      "Run the local demo/dev app: npm run dev",
      "Register the component in your app (repo pattern): import \x27./src/index.ts\x27",
      "Place the element in markup: <y11n-spreadsheet rows=\"50\" cols=\"26\"></y11n-spreadsheet>",
      "Provide data through setData(...) or the data property; listen for cell-change/selection-change/data-change events.",
      "Required Node.js version: Not found in repo.",
      "Published package install and production import instructions: Not found in repo." ]
    9.6 11.5
  s

/-! ### Module-level script: mkdir, overflow check, save (source lines 7-8 and 138-142) -/

def OUTPUT_PATH : String := "output/pdf/accessible-spreadsheet-component-summary.pdf"

/-- The outcome of a run: the `RuntimeError` page-overflow rejection, or a
saved file whose path is printed. -/
inductive RenderOutcome where
  | overflow (y : ℚ)
  | saved (path : String)
deriving DecidableEq

def RenderOutcome.isOverflow : RenderOutcome → Bool
  | .overflow _ => true
  | .saved _ => false

/-- The observable file-system footprint of the script: whether the output
parent directory exists, and the contents (the rendered page) of the file at
`OUTPUT_PATH`, if present. -/
structure FS where
  parentDirExists : Bool
  file : Option (List Instr)
deriving DecidableEq

/-- The whole script run against a file system: create the parent directory,
lay out the fixed document, then either reject with overflow (writing no
file) or save the page and report the output path. -/
def runScript (sw : Measure) (fs0 : FS) : FS × RenderOutcome :=
  let fs1 : FS := { fs0 with parentDirExists := true }
  let final := documentDriver sw initState
  if final.y < MARGIN then (fs1, .overflow final.y)
  else ({ fs1 with file := some final.out }, .saved OUTPUT_PATH)

/-! ### Derived descriptions used in specifications -/

/-- The instruction list produced by drawing `lines` one under another:
abscissa `x` throughout, first line at ordinate `y0`, each further line
`lh` lower. -/
def lineInstrs (x y0 lh : ℚ) (font : String) (size : ℚ) :
    List String → List Instr
  | [] => []
  | line :: rest =>
      ⟨x, y0, font, size, line⟩ :: lineInstrs x (y0 - lh) lh font size rest

/-- A concrete sample measure for witnesses: width proportional to the
number of characters. -/
def charWidth : Measure := fun _ fontSize t => fontSize * t.length

/-! ### Helper lemmas -/

theorem lineInstrs_length (x y0 lh : ℚ) (font : String) (size : ℚ)
    (lines : List String) :
    (lineInstrs x y0 lh font size lines).length = lines.length := by
  induction lines generalizing y0 with
  | nil => rfl
  | cons line rest ih => simp [lineInstrs, ih]

theorem lineInstrs_map_text (x y0 lh : ℚ) (font : String) (size : ℚ)
    (lines : List String) :
    (lineInstrs x y0 lh font size lines).map Instr.text = lines := by
  induction lines generalizing y0 with
  | nil => rfl
  | cons line rest ih => simp [lineInstrs, ih]

theorem lineInstrs_mem_x (x y0 lh : ℚ) (font : String) (size : ℚ)
    (lines : List String) :
    ∀ i ∈ lineInstrs x y0 lh font size lines, i.x = x := by
  induction lines generalizing y0 with
  | nil => intro i hi; simp [lineInstrs] at hi
  | cons line rest ih =>
      intro i hi
      simp only [lineInstrs, List.mem_cons] at hi
      rcases hi with rfl | hi
      · rfl
      · exact ih (y0 - lh) i hi

theorem drawLoop_eq (x lh : ℚ) (s : State) (lines : List String) :
    drawLoop x lh s lines =
      { s with y := s.y - lh * lines.length,
               out := s.out ++ lineInstrs x s.y lh s.font s.size lines } := by
  induction lines generalizing s with
  | nil => simp [drawLoop, lineInstrs]
  | cons line rest ih =>
      simp only [drawLoop, drawString]
      rw [ih]
      ext
      · simp only [List.length_cons]
        push_cast
        ring
      · rfl
      · rfl
      · simp [lineInstrs]

theorem greedyGroupAux_join (lw : List String → ℚ) (maxW : ℚ)
    (toks : List String) :
    ∀ cur, (greedyGroupAux lw maxW cur toks).flatten = cur ++ toks := by
  induction toks with
  | nil => intro cur; simp [greedyGroupAux]
  | cons t ts ih =>
      intro cur
      by_cases h : lw (cur ++ [t]) ≤ maxW
      · simp [greedyGroupAux, h, ih]
      · simp [greedyGroupAux, h, ih]

theorem greedyGroup_join (lw : List String → ℚ) (maxW : ℚ)
    (toks : List String) :
    (greedyGroup lw maxW toks).flatten = toks := by
  cases toks with
  | nil => rfl
  | cons t ts => simpa using greedyGroupAux_join lw maxW ts [t]

theorem greedyGroupAux_mem (lw : List String → ℚ) (maxW : ℚ)
    (toks : List String) :
    ∀ cur, cur ≠ [] → (lw cur ≤ maxW ∨ cur.length = 1) →
      ∀ g ∈ greedyGroupAux lw maxW cur toks,
        g ≠ [] ∧ (lw g ≤ maxW ∨ g.length = 1) := by
  induction toks with
  | nil =>
      intro cur hne hok g hg
      simp [greedyGroupAux] at hg
      exact hg ▸ ⟨hne, hok⟩
  | cons t ts ih =>
      intro cur hne hok g hg
      by_cases h : lw (cur ++ [t]) ≤ maxW
      · simp only [greedyGroupAux, if_pos h] at hg
        exact ih (cur ++ [t]) (by simp) (Or.inl h) g hg
      · simp only [greedyGroupAux, if_neg h, List.mem_cons] at hg
        rcases hg with rfl | hg
        · exact ⟨hne, hok⟩
        · exact ih [t] (by simp) (Or.inr rfl) g hg

theorem greedyGroup_mem (lw : List String → ℚ) (maxW : ℚ)
    (toks : List String) :
    ∀ g ∈ greedyGroup lw maxW toks,
      g ≠ [] ∧ (lw g ≤ maxW ∨ g.length = 1) := by
  cases toks with
  | nil => intro g hg; cases hg
  | cons t ts =>
      exact greedyGroupAux_mem lw maxW ts [t] (by simp) (Or.inr rfl)

theorem tokenizeAux_whitespace (l : List Char)
    (h : ∀ c ∈ l, c.isWhitespace) : tokenizeAux [] l = [] := by
  induction l with
  | nil => rfl
  | cons c cs ih =>
      have hc : c.isWhitespace := h c (by simp)
      simp only [tokenizeAux, hc, if_true, List.isEmpty_nil]
      exact ih fun d hd => h d (by simp [hd])

theorem tokens_whitespace (text : String)
    (h : ∀ c ∈ text.data, c.isWhitespace) : tokens text = [] := by
  simp [tokens, tokenizeAux_whitespace text.data h]

theorem simpleSplit_eq_nil (sw : Measure) (text fontName : String)
    (fontSize maxWidth : ℚ) (h : tokens text = []) :
    simpleSplit sw text fontName fontSize maxWidth = [] := by
  simp [simpleSplit, h, greedyGroup]

theorem simpleSplit_single (sw : Measure) (text fontName : String)
    (fontSize maxWidth : ℚ) (t : String) (h : tokens text = [t]) :
    simpleSplit sw text fontName fontSize maxWidth = [t] := by
  simp [simpleSplit, h, greedyGroup, greedyGroupAux, joinSpace]

theorem drawLoop_y_le (x lh : ℚ) (hlh : 0 ≤ lh) (s : State)
    (lines : List String) : (drawLoop x lh s lines).y ≤ s.y := by
  rw [drawLoop_eq]
  have h0 : 0 ≤ lh * (lines.length : ℚ) :=
    mul_nonneg hlh (Nat.cast_nonneg _)
  simpa using h0

theorem draw_bulletsAux_y_le (sw : Measure) (fsz lh : ℚ) (hlh : 0 ≤ lh) :
    ∀ items : List String, ∀ s : State,
      (draw_bulletsAux sw fsz lh s items).y ≤ s.y := by
  intro items
  induction items with
  | nil => intro s; exact le_refl _
  | cons item rest ih =>
      intro s
      cases hsp : simpleSplit sw item "Helvetica" fsz (CONTENT_WIDTH - 12) with
      | nil => simpa [draw_bulletsAux, hsp] using ih s
      | cons first more =>
          simp only [draw_bulletsAux, hsp]
          refine le_trans (ih _) ?_
          refine le_trans (drawLoop_y_le _ lh hlh _ more) ?_
          simp [drawString]
          linarith

theorem draw_numberedAux_y_le (sw : Measure) (fsz lh : ℚ) (hlh : 0 ≤ lh) :
    ∀ items : List String, ∀ idx : ℕ, ∀ s : State,
      (draw_numberedAux sw fsz lh idx s items).y ≤ s.y := by
  intro items
  induction items with
  | nil => intro idx s; exact le_refl _
  | cons item rest ih =>
      intro idx s
      cases hsp : simpleSplit sw item "Helvetica" fsz
          (CONTENT_WIDTH - sw "Helvetica" fsz (ordPfx idx)) with
      | nil => simpa [draw_numberedAux, hsp] using ih (idx + 1) s
      | cons first more =>
          simp only [draw_numberedAux, hsp]
          refine le_trans (ih _ _) ?_
          refine le_trans (drawLoop_y_le _ lh hlh _ more) ?_
          simp [drawString]
          linarith

theorem step_y_le (sw : Measure) (s : State) (c : Call)
    (hc : heightsNonneg c) : (step sw s c).y ≤ s.y := by
  cases c with
  | title t => simp [step, draw_title, drawString, setFont]
  | heading t => simp [step, draw_heading, drawString, setFont]
  | paragraph t fsz lh =>
      have h := drawLoop_y_le MARGIN lh hc (setFont s "Helvetica" fsz)
        (simpleSplit sw t "Helvetica" fsz CONTENT_WIDTH)
      simpa [step, draw_paragraph, setFont] using h
  | bullets its fsz lh =>
      have h := draw_bulletsAux_y_le sw fsz lh hc its (setFont s "Helvetica" fsz)
      simpa [step, draw_bullets, setFont] using h
  | numbered its fsz lh =>
      have h := draw_numberedAux_y_le sw fsz lh hc its 1 (setFont s "Helvetica" fsz)
      simpa [step, draw_numbered, setFont] using h
  | gap => simp [step, section_gap]

theorem foldl_step_y_le (sw : Measure) :
    ∀ calls : List Call, (∀ c ∈ calls, heightsNonneg c) →
      ∀ s : State, ((calls.foldl (step sw) s).y ≤ s.y) := by
  intro calls
  induction calls with
  | nil => intro _ s; exact le_refl _
  | cons c0 cs ih =>
      intro h s
      simp only [List.foldl_cons]
      exact le_trans (ih (fun c hc => h c (by simp [hc])) (step sw s c0))
        (step_y_le sw s c0 (h c0 (by simp)))

/-! ### Claim theorems -/

/-- Claim C3: every primitive call with non-negative line heights moves the
cursor weakly downward — after any single call, and hence after every call
of any sequence of calls, the cursor `y` is at most its previous value; the
primitives themselves perform no bounds check (they are total functions of
the state). -/
theorem cursor_monotonic (sw : Measure) (s : State) (c : Call)
    (calls : List Call) (hc : heightsNonneg c)
    (hcs : ∀ c' ∈ calls, heightsNonneg c') :
    (step sw s c).y ≤ s.y ∧ (calls.foldl (step sw) s).y ≤ s.y :=
  ⟨step_y_le sw s c hc, foldl_step_y_le sw calls hcs s⟩

/-- Concrete instance of `cursor_monotonic`: a gap call and a one-call
sequence from the initial state. -/
theorem cursor_monotonic_witness :
    heightsNonneg Call.gap
    ∧ (∀ c' ∈ ([Call.gap] : List Call), heightsNonneg c')
    ∧ ((step charWidth initState Call.gap).y ≤ initState.y
        ∧ (([Call.gap] : List Call).foldl (step charWidth) initState).y ≤
            initState.y) := by
  have hcs : ∀ c' ∈ ([Call.gap] : List Call), heightsNonneg c' := by
    intro c' hc'
    simp only [List.mem_singleton] at hc'
    subst hc'
    trivial
  exact ⟨trivial, hcs,
    cursor_monotonic charWidth initState Call.gap [Call.gap] trivial hcs⟩

/-- Claim C2: for a non-empty input and fixed font, size and width budget,
the wrapper partitions the whitespace-separated tokens of the text, in
order, into groups; each returned line is a group joined by single spaces;
every group is non-empty and either its joined line measures within the
budget or it is a single (over-wide) token standing alone on its line. -/
theorem wrap_correct (sw : Measure) (fontName : String) (fontSize maxWidth : ℚ)
    (text : String) (hne : text ≠ "") :
    ∃ groups : List (List String),
      groups.flatten = tokens text
      ∧ simpleSplit sw text fontName fontSize maxWidth = groups.map joinSpace
      ∧ ∀ g ∈ groups,
          g ≠ [] ∧ (sw fontName fontSize (joinSpace g) ≤ maxWidth ∨
            g.length = 1) := by
  refine ⟨greedyGroup (fun ts => sw fontName fontSize (joinSpace ts)) maxWidth
    (tokens text), ?_, rfl, ?_⟩
  · exact greedyGroup_join _ _ _
  · intro g hg
    exact greedyGroup_mem _ _ _ g hg

/-- Concrete instance of `wrap_correct` on the text "hello world". -/
theorem wrap_correct_witness :
    "hello world" ≠ ""
    ∧ ∃ groups : List (List String),
        groups.flatten = tokens "hello world"
        ∧ simpleSplit charWidth "hello world" "Helvetica" 10 200 =
            groups.map joinSpace
        ∧ ∀ g ∈ groups,
            g ≠ [] ∧ (charWidth "Helvetica" 10 (joinSpace g) ≤ 200 ∨
              g.length = 1) :=
  ⟨by decide, wrap_correct charWidth "Helvetica" 10 200 "hello world" (by decide)⟩

/-- Claim C7: a paragraph wraps against the full content width, emits one
instruction per wrapped line, all at the left margin and descending by the
line height, and advances the cursor by the line height times the number of
wrapped lines; a whitespace-only (or empty) text wraps to no lines, draws
nothing and advances the cursor by zero. -/
theorem paragraph_advance (sw : Measure) (s : State) (text : String)
    (fsz lh : ℚ) :
    (draw_paragraph sw s text fsz lh).y =
      s.y - lh * ((simpleSplit sw text "Helvetica" fsz CONTENT_WIDTH).length : ℚ)
    ∧ (draw_paragraph sw s text fsz lh).out =
        s.out ++ lineInstrs MARGIN s.y lh "Helvetica" fsz
          (simpleSplit sw text "Helvetica" fsz CONTENT_WIDTH)
    ∧ (draw_paragraph sw s text fsz lh).out.map Instr.text =
        s.out.map Instr.text ++ simpleSplit sw text "Helvetica" fsz CONTENT_WIDTH
    ∧ (∀ i ∈ lineInstrs MARGIN s.y lh "Helvetica" fsz
          (simpleSplit sw text "Helvetica" fsz CONTENT_WIDTH), i.x = MARGIN)
    ∧ ((∀ ch ∈ text.data, ch.isWhitespace) →
        simpleSplit sw text "Helvetica" fsz CONTENT_WIDTH = []
        ∧ (draw_paragraph sw s text fsz lh).y = s.y
        ∧ (draw_paragraph sw s text fsz lh).out = s.out) := by
  have hout : draw_paragraph sw s text fsz lh =
      { setFont s "Helvetica" fsz with
          y := s.y - lh *
            ((simpleSplit sw text "Helvetica" fsz CONTENT_WIDTH).length : ℚ),
          out := s.out ++ lineInstrs MARGIN s.y lh "Helvetica" fsz
            (simpleSplit sw text "Helvetica" fsz CONTENT_WIDTH) } := by
    unfold draw_paragraph
    rw [drawLoop_eq]
    rfl
  refine ⟨by rw [hout], by rw [hout], ?_, lineInstrs_mem_x _ _ _ _ _ _, ?_⟩
  · rw [hout]
    simp [lineInstrs_map_text]
  · intro hws
    have hnil : simpleSplit sw text "Helvetica" fsz CONTENT_WIDTH = [] :=
      simpleSplit_eq_nil sw text "Helvetica" fsz CONTENT_WIDTH
        (tokens_whitespace text hws)
    refine ⟨hnil, ?_, ?_⟩ <;> rw [hout, hnil] <;> simp [lineInstrs]

/-- Claim C4: `draw_bullets` skips every item whose wrap result is empty —
filtering those items out of the list does not change the render at all —
and on the concrete items `["", "  ", "hello"]` it emits exactly the single
bullet line "- hello" and advances the cursor by exactly one line height. -/
theorem bullets_skip_policy (sw : Measure) (s : State) (fsz lh : ℚ) :
    (∀ items : List String,
        draw_bullets sw s items fsz lh =
          draw_bullets sw s
            (items.filter fun it =>
              !(simpleSplit sw it "Helvetica" fsz (CONTENT_WIDTH - 12)).isEmpty)
            fsz lh)
    ∧ (draw_bullets sw s ["", "  ", "hello"] fsz lh).y = s.y - lh
    ∧ (draw_bullets sw s ["", "  ", "hello"] fsz lh).out =
        s.out ++ [⟨MARGIN, s.y, "Helvetica", fsz, "- hello"⟩] := by
  have haux : ∀ items : List String, ∀ st : State,
      draw_bulletsAux sw fsz lh st items =
        draw_bulletsAux sw fsz lh st
          (items.filter fun it =>
            !(simpleSplit sw it "Helvetica" fsz
                (CONTENT_WIDTH - 12)).isEmpty) := by
    intro items
    induction items with
    | nil => intro st; rfl
    | cons item rest ih =>
        intro st
        cases hsp : simpleSplit sw item "Helvetica" fsz (CONTENT_WIDTH - 12) with
        | nil =>
            rw [List.filter_cons_of_neg (by simp [hsp])]
            simp only [draw_bulletsAux, hsp]
            exact ih st
        | cons first more =>
            rw [List.filter_cons_of_pos (by simp [hsp])]
            simp only [draw_bulletsAux, hsp]
            exact ih _
  have h1 : simpleSplit sw "" "Helvetica" fsz (CONTENT_WIDTH - 12) = [] :=
    simpleSplit_eq_nil _ _ _ _ _ rfl
  have h2 : simpleSplit sw "  " "Helvetica" fsz (CONTENT_WIDTH - 12) = [] :=
    simpleSplit_eq_nil _ _ _ _ _ (by decide)
  have h3 : simpleSplit sw "hello" "Helvetica" fsz (CONTENT_WIDTH - 12) =
      ["hello"] := simpleSplit_single _ _ _ _ _ _ (by decide)
  refine ⟨fun items => haux items _, ?_, ?_⟩ <;>
    simp [draw_bullets, draw_bulletsAux, h1, h2, h3, drawLoop, drawString,
      setFont, show ("- " ++ "hello" : String) = "- hello" from rfl]

/-- Claim C5: ordinals in `draw_numbered` are positional: the per-item loop
advances the 1-based ordinal on every item, including an item that wraps to
no lines (skipped with no drawing and no cursor move), so the item after a
skipped item keeps its positional ordinal; concretely on `["a", "", "b"]`
the drawn line texts are "1. a" and "3. b". -/
theorem numbered_positional_ordinals (sw : Measure) (fsz lh : ℚ) (idx : ℕ)
    (s : State) (e : String) (items : List String) (he : tokens e = []) :
    draw_numberedAux sw fsz lh idx s (e :: items) =
      draw_numberedAux sw fsz lh (idx + 1) s items
    ∧ (draw_numbered sw s ["a", "", "b"] fsz lh).out.map Instr.text =
        s.out.map Instr.text ++ ["1. a", "3. b"] := by
  have hske : ∀ W : ℚ, simpleSplit sw e "Helvetica" fsz W = [] := fun W =>
    simpleSplit_eq_nil _ _ _ _ _ he
  have hskb : ∀ W : ℚ, simpleSplit sw "" "Helvetica" fsz W = [] := fun W =>
    simpleSplit_eq_nil _ _ _ _ _ rfl
  have ha : ∀ W : ℚ, simpleSplit sw "a" "Helvetica" fsz W = ["a"] := fun W =>
    simpleSplit_single _ _ _ _ _ _ (by decide)
  have hb : ∀ W : ℚ, simpleSplit sw "b" "Helvetica" fsz W = ["b"] := fun W =>
    simpleSplit_single _ _ _ _ _ _ (by decide)
  constructor
  · simp [draw_numberedAux, hske]
  · simp [draw_numbered, draw_numberedAux, hskb, ha, hb, drawLoop, drawString,
      setFont, show (ordPfx 1 ++ "a" : String) = "1. a" by decide,
      show (ordPfx 3 ++ "b" : String) = "3. b" by decide]

/-- Concrete instance of `numbered_positional_ordinals`: the skipped item is
the empty string. -/
theorem numbered_positional_ordinals_witness :
    tokens "" = []
    ∧ (draw_numberedAux charWidth 9.6 11.5 1 initState ("" :: ["x"]) =
        draw_numberedAux charWidth 9.6 11.5 (1 + 1) initState ["x"]
      ∧ (draw_numbered charWidth initState ["a", "", "b"] 9.6 11.5).out.map
            Instr.text =
          initState.out.map Instr.text ++ ["1. a", "3. b"]) :=
  ⟨rfl, numbered_positional_ordinals charWidth 9.6 11.5 1 initState "" ["x"] rfl⟩

/-- Claim C6: for an item of `draw_numbered` whose wrap is non-empty, the
ordinal marker is measured at the given font and size, the item text is
wrapped against the content width minus that measured marker width, the
first wrapped line is drawn with the marker at the left margin, every
continuation line is drawn indented by exactly the measured marker width,
and a wider measured marker yields a strictly smaller text-width budget (in
particular, under the character-count measure at a positive size, marker
"10. " measures strictly wider than marker "1. "). -/
theorem numbered_pfx_budget_alignment (sw : Measure) (fsz lh : ℚ) (idx : ℕ)
    (s : State) (item : String) (rest : List String) (first : String)
    (more : List String)
    (hw : simpleSplit sw item "Helvetica" fsz
        (CONTENT_WIDTH - sw "Helvetica" fsz (ordPfx idx)) = first :: more) :
    draw_numberedAux sw fsz lh idx s (item :: rest) =
      draw_numberedAux sw fsz lh (idx + 1)
        { s with
            y := s.y - lh * (1 + (more.length : ℚ)),
            out := s.out ++
              ⟨MARGIN, s.y, s.font, s.size, ordPfx idx ++ first⟩ ::
                lineInstrs (MARGIN + sw "Helvetica" fsz (ordPfx idx))
                  (s.y - lh) lh s.font s.size more }
        rest
    ∧ (∀ n m : ℕ, sw "Helvetica" fsz (ordPfx m) < sw "Helvetica" fsz (ordPfx n) →
        CONTENT_WIDTH - sw "Helvetica" fsz (ordPfx n) <
          CONTENT_WIDTH - sw "Helvetica" fsz (ordPfx m))
    ∧ (0 < fsz →
        charWidth "Helvetica" fsz (ordPfx 1) <
          charWidth "Helvetica" fsz (ordPfx 10)) := by
  refine ⟨?_, fun n m h => by linarith, fun h => ?_⟩
  · simp only [draw_numberedAux, hw]
    congr 1
    rw [drawLoop_eq]
    ext
    · simp only [drawString]
      ring
    · rfl
    · rfl
    · simp [drawString]
  · have h1 : ((ordPfx 1).length : ℚ) = 3 := by decide
    have h10 : ((ordPfx 10).length : ℚ) = 4 := by decide
    simp only [charWidth, h1, h10]
    linarith

/-- Concrete instance of `numbered_pfx_budget_alignment`: a one-token item
at ordinal 1 under the character-count measure. -/
theorem numbered_pfx_budget_alignment_witness :
    simpleSplit charWidth "a" "Helvetica" 1
        (CONTENT_WIDTH - charWidth "Helvetica" 1 (ordPfx 1)) = "a" :: []
    ∧ (draw_numberedAux charWidth 1 2 1 initState ("a" :: []) =
        draw_numberedAux charWidth 1 2 (1 + 1)
          { initState with
              y := initState.y - 2 * (1 + (([] : List String).length : ℚ)),
              out := initState.out ++
                ⟨MARGIN, initState.y, initState.font, initState.size,
                  ordPfx 1 ++ "a"⟩ ::
                  lineInstrs (MARGIN + charWidth "Helvetica" 1 (ordPfx 1))
                    (initState.y - 2) 2 initState.font initState.size [] }
          []
      ∧ (∀ n m : ℕ,
          charWidth "Helvetica" 1 (ordPfx m) < charWidth "Helvetica" 1 (ordPfx n) →
            CONTENT_WIDTH - charWidth "Helvetica" 1 (ordPfx n) <
              CONTENT_WIDTH - charWidth "Helvetica" 1 (ordPfx m))
      ∧ ((0 : ℚ) < 1 →
          charWidth "Helvetica" 1 (ordPfx 1) < charWidth "Helvetica" 1 (ordPfx 10))) :=
  ⟨by decide,
    numbered_pfx_budget_alignment charWidth 1 2 1 initState "a" [] "a" [] (by decide)⟩

/-- Claim C1: after the Document Driver finishes its fixed sequence of calls,
the overflow rejection is raised exactly when the final cursor `y` is
strictly below the bottom margin; on rejection the file at the output path is
left exactly as it was, and otherwise the rendered page is saved there and
the output path is reported. -/
theorem overflow_guard_iff (sw : Measure) (fs0 : FS) :
    ((runScript sw fs0).2.isOverflow = true ↔
      (documentDriver sw initState).y < MARGIN)
    ∧ ((documentDriver sw initState).y < MARGIN →
        (runScript sw fs0).1.file = fs0.file)
    ∧ (¬ (documentDriver sw initState).y < MARGIN →
        (runScript sw fs0).2 = RenderOutcome.saved OUTPUT_PATH
        ∧ (runScript sw fs0).1.file = some (documentDriver sw initState).out) := by
  unfold runScript
  by_cases h : (documentDriver sw initState).y < MARGIN
  · simp [h, RenderOutcome.isOverflow]
  · simp [h, RenderOutcome.isOverflow]

/-- Claim C8: the run is a deterministic function of the measure and the
fixed call sequence: its outcome does not depend on the pre-existing file
system, and running the script a second time over the file system left by a
first run reproduces exactly the same file system and outcome. -/
theorem driver_deterministic_idempotent (sw : Measure) (fs0 fs0' : FS) :
    (runScript sw fs0).2 = (runScript sw fs0').2
    ∧ runScript sw (runScript sw fs0).1 = runScript sw fs0 := by
  unfold runScript
  by_cases h : (documentDriver sw initState).y < MARGIN
  · simp [h]
  · simp [h]

/-- Claim C9: `draw_title` always emits exactly one instruction and advances
the cursor by its fixed line height 22, and `draw_heading` likewise with
fixed line height 14 — for every text, including the empty string; the
zero-advance policy for empty input applies only to the wrapping
primitives. -/
theorem title_heading_fixed_advance (s : State) (text : String) :
    (draw_title s text).y = s.y - 22
    ∧ (draw_title s text).out =
        s.out ++ [⟨MARGIN, s.y, "Helvetica-Bold", 18, text⟩]
    ∧ (draw_heading s text).y = s.y - 14
    ∧ (draw_heading s text).out =
        s.out ++ [⟨MARGIN, s.y, "Helvetica-Bold", 11.5, text⟩]
    ∧ (draw_title s "").out.length = s.out.length + 1
    ∧ (draw_heading s "").out.length = s.out.length + 1 := by
  refine ⟨rfl, rfl, rfl, rfl, ?_, ?_⟩
  · simp [draw_title, drawString, setFont]
  · simp [draw_heading, drawString, setFont]

/-- Claim C10: the parent directory of the output path is created
unconditionally at startup, before any layout, so the directory side effect
persists even when the render is rejected with overflow and the output file
itself is left untouched. -/
theorem mkdir_survives_failure (sw : Measure) (fs0 : FS) :
    (runScript sw fs0).1.parentDirExists = true
    ∧ ((runScript sw fs0).2.isOverflow = true →
        (runScript sw fs0).1.file = fs0.file) := by
  unfold runScript
  by_cases h : (documentDriver sw initState).y < MARGIN
  · simp [h, RenderOutcome.isOverflow]
  · simp [h, RenderOutcome.isOverflow]

end PdfSummary
